import Mathlib

/-!
Shallow embedding of the input-format inference engine of
`src/web/input_template.rs` (the cargo-compete template generator).

Rust strings are modelled as Lean `String`s; functions operate on their
character lists.  The anchored regular expressions the source builds with
the `regex` crate are modelled by a small backtracking matcher (`reMatch`)
over an explicit pattern syntax (`RE`); the `regex` crate uses
leftmost-first (Perl-like) priority for alternation and repetition, which
is exactly the order a backtracking matcher explores, so for these
anchored patterns the two agree.  Machine integers (`i32` query tags) are
modelled as `Int` with the explicit `i32` range check performed by Rust's
`parse::<i32>`.
-/

namespace InputTemplate

/-- Characters Rust's `char::is_whitespace` / the regex class `\s` accept,
restricted to ASCII (the source only ever sees ASCII statement text). -/
def isWsChar (c : Char) : Bool :=
  c = ' ' || c = '\t' || c = '\n' || c = '\r' || c = '\x0b' || c = '\x0c'

/-- Model of `char::to_ascii_lowercase`. -/
def asciiLowerChar (c : Char) : Char :=
  if 'A' ≤ c ∧ c ≤ 'Z' then Char.ofNat (c.toNat + 32) else c

/-- Model of `char::to_ascii_uppercase`. -/
def asciiUpperChar (c : Char) : Char :=
  if 'a' ≤ c ∧ c ≤ 'z' then Char.ofNat (c.toNat - 32) else c

/-- Model of `str::to_ascii_lowercase`. -/
def to_ascii_lower (s : String) : String := String.mk (s.toList.map asciiLowerChar)

/-- Model of `str::to_ascii_uppercase`. -/
def to_ascii_upper (s : String) : String := String.mk (s.toList.map asciiUpperChar)

/-- Model of `str::eq_ignore_ascii_case`. -/
def eq_ignore_ascii_case (a b : String) : Bool := to_ascii_lower a = to_ascii_lower b

/-- Contiguous-sublist test on character lists. -/
def listIsInfixOf (p : List Char) : List Char → Bool
  | [] => p.isEmpty
  | x :: rest => p.isPrefixOf (x :: rest) || listIsInfixOf p rest

/-- Model of `str::contains(pat)` for a string pattern: substring test. -/
def strContains (s pat : String) : Bool := listIsInfixOf pat.toList s.toList

/-- Model of `str::trim` (here: ASCII whitespace on both ends). -/
def strTrim (s : String) : String :=
  String.mk (((s.toList.dropWhile isWsChar).reverse.dropWhile isWsChar).reverse)

/-- Model of `str::trim_matches(c)`: strip all leading and trailing `c`. -/
def trimMatchesChar (c : Char) (s : String) : String :=
  String.mk (((s.toList.dropWhile (· = c)).reverse.dropWhile (· = c)).reverse)

/-- Model of `str::replace(from, to)` on character lists: replace every
non-overlapping occurrence left to right.  Every call site passes a
non-empty pattern, so each replacement consumes at least one character and
the initial fuel `s.length` always suffices. -/
def replaceGo (pat repl : List Char) : Nat → List Char → List Char
  | 0, s => s
  | _ + 1, [] => []
  | fuel + 1, x :: rest =>
    if pat ≠ [] ∧ pat.isPrefixOf (x :: rest) then
      repl ++ replaceGo pat repl fuel ((x :: rest).drop pat.length)
    else
      x :: replaceGo pat repl fuel rest

/-- String wrapper for `replaceGo` (model of `str::replace`). -/
def strReplace (s pat repl : String) : String :=
  String.mk (replaceGo pat.toList repl.toList s.toList.length s.toList)

/-- Model of `str::replace(' ', "")`: drop all space characters. -/
def dropSpaces (s : String) : String := String.mk (s.toList.filter (· ≠ ' '))

/-- Model of `str::split_once('-')`: split at the first occurrence. -/
def splitOnceDash : List Char → Option (List Char × List Char)
  | [] => none
  | c :: rest =>
    if c = '-' then some ([], rest)
    else (splitOnceDash rest).map (fun p => (c :: p.1, p.2))

/-- Model of `str::split_whitespace`: non-empty tokens between whitespace. -/
def splitWsCore : List Char → List Char → List String
  | [], cur => if cur.isEmpty then [] else [String.mk cur.reverse]
  | c :: rest, cur =>
    if isWsChar c then
      (if cur.isEmpty then [] else [String.mk cur.reverse]) ++ splitWsCore rest []
    else
      splitWsCore rest (c :: cur)

/-- Model of `str::split_whitespace`. -/
def split_whitespace (s : String) : List String := splitWsCore s.toList []

/-- Model of `char::is_ascii_alphanumeric`. -/
def isAsciiAlnum (c : Char) : Bool :=
  ('a' ≤ c ∧ c ≤ 'z') || ('A' ≤ c ∧ c ≤ 'Z') || ('0' ≤ c ∧ c ≤ '9')

/-- Model of `char::is_ascii_alphabetic`. -/
def isAsciiAlpha (c : Char) : Bool := ('a' ≤ c ∧ c ≤ 'z') || ('A' ≤ c ∧ c ≤ 'Z')

/-- Model of `char::is_ascii_digit`. -/
def isAsciiDigit (c : Char) : Bool := '0' ≤ c ∧ c ≤ '9'

/-! ### The backtracking regex matcher

Patterns in the source are all anchored (`^...$`) and built from character
classes, literals, optional groups, one-or-more repetitions (greedy
`[..]+`, `\d+`, `\s+`, lazy `(.+?)`) and capture groups.  `RE` covers
exactly those constructs; repetition is restricted to one-character
classes, so every loop iteration consumes input and the matcher is
structurally recursive. -/

/-- Pattern syntax for the anchored regexes the source uses. -/
inductive RE where
  /-- Matches the empty string. -/
  | eps : RE
  /-- Matches one character of the class. -/
  | cls : (Char → Bool) → RE
  /-- Sequencing. -/
  | seq : RE → RE → RE
  /-- Prioritized alternation: left first (leftmost-first semantics). -/
  | alt : RE → RE → RE
  /-- Numbered capture group. -/
  | group : Nat → RE → RE
  /-- One or more characters of the class; `true` = greedy, `false` = lazy. -/
  | plus : Bool → (Char → Bool) → RE

/-- Captured groups: group number to captured character list. -/
abbrev Caps := List (Nat × List Char)

/-- One-or-more repetition of a one-character class, with backtracking
continuation; greedy tries the longer match first, lazy the shorter. -/
def plusGo (g : Bool) (p : Char → Bool) :
    List Char → Caps → (List Char → Caps → Option Caps) → Option Caps
  | [], _, _ => none
  | x :: rest, caps, k =>
    if p x then
      if g then (plusGo g p rest caps k).orElse (fun _ => k rest caps)
      else (k rest caps).orElse (fun _ => plusGo g p rest caps k)
    else none

/-- Backtracking matcher in continuation-passing style.  `reMatch r s caps k`
tries every way for `r` to consume a prefix of `s`, in leftmost-first
priority order, calling `k` on the remainder. -/
def reMatch : RE → List Char → Caps → (List Char → Caps → Option Caps) → Option Caps
  | .eps, s, caps, k => k s caps
  | .cls _, [], _, _ => none
  | .cls p, x :: rest, caps, k => if p x then k rest caps else none
  | .seq a b, s, caps, k => reMatch a s caps (fun s2 caps2 => reMatch b s2 caps2 k)
  | .alt a b, s, caps, k => (reMatch a s caps k).orElse (fun _ => reMatch b s caps k)
  | .group n a, s, caps, k =>
    reMatch a s caps (fun s2 caps2 => k s2 ((n, s.take (s.length - s2.length)) :: caps2))
  | .plus g p, s, caps, k => plusGo g p s caps k

/-- Whole-string (anchored `^...$`) match, returning the captures. -/
def fullMatch (r : RE) (s : String) : Option Caps :=
  reMatch r s.toList [] (fun rest caps => if rest.isEmpty then some caps else none)

/-- Look up a capture group (each group is bound at most once in the
patterns used here). -/
def capGet (caps : Caps) (n : Nat) : Option String :=
  (caps.find? (fun p => p.1 = n)).map (fun p => String.mk p.2)

/-- Sequence of several patterns. -/
def reSeq (l : List RE) : RE := l.foldr RE.seq RE.eps

/-- Literal string pattern. -/
def reLit (s : String) : RE := reSeq (s.toList.map (fun c => RE.cls (· = c)))

/-- Optional pattern `r?` (greedy: prefers matching). -/
def reOpt (r : RE) : RE := RE.alt r RE.eps

/-- The regex-crate class `.`: any character except a newline. -/
def reDotCls : Char → Bool := fun c => c ≠ '\n'

/-! ### Symbol normalisation (`snake`, `sym_expr`, `is_string_symbol`) -/

/-- Character loop of `snake`: map every character to itself (lowercased)
when ASCII-alphanumeric and to `'_'` otherwise, collapsing consecutive
underscores; `prevUnd` is the `prev_is_underscore` flag. -/
def snakeCore : List Char → Bool → List Char
  | [], _ => []
  | ch :: rest, prevUnd =>
    let c := if isAsciiAlnum ch then ch else '_'
    if c = '_' then
      (if prevUnd then [] else ['_']) ++ snakeCore rest true
    else
      asciiLowerChar c :: snakeCore rest false

/-- Model of `snake`: normalise a token to a code-safe identifier
(`src/web/input_template.rs` lines 86-102). -/
def snake (s : String) : String :=
  trimMatchesChar '_' (String.mk (snakeCore s.toList false))

/-- The regex `^(\d+)([A-Za-z]+)$` (`coef_re` in `sym_expr`). -/
def reCoef : RE :=
  reSeq [RE.group 1 (RE.plus true isAsciiDigit), RE.group 2 (RE.plus true isAsciiAlpha)]

/-- Model of `sym_expr`: convert a latex-ish size token to a Rust-ish
expression (`src/web/input_template.rs` lines 104-122).  The capture
lookups on a successful `coef_re` match always succeed (both groups are
mandatory), so the `none` fallthrough of the bind is unreachable. -/
def sym_expr (s : String) : String :=
  let t := strReplace (dropSpaces (strTrim s)) "\\" ""
  let dash : Option String :=
    match splitOnceDash t.toList with
    | some (a, b) =>
      if b.all isAsciiDigit then some (snake (String.mk a) ++ "-" ++ String.mk b) else none
    | none => none
  match dash with
  | some r => r
  | none =>
    match (fullMatch reCoef t).bind
        (fun cap => (capGet cap 1).bind
          (fun d => (capGet cap 2).map (fun a => d ++ "*" ++ snake a))) with
    | some r => r
    | none => if t.toList.all isAsciiAlpha then snake t else t

/-- Model of `is_string_symbol` (`src/web/input_template.rs` lines 124-126). -/
def is_string_symbol (sym : String) : Bool :=
  let u := to_ascii_upper sym
  u = "S" || u = "T" || u = "U" || u = "X"

/-! ### The 1D-array-with-ellipsis detector -/

/-- The `\ldots` normalisation at the top of `parse_1d_array_line`:
`line.replace("\\cdots", "\\ldots").replace("\\dots", "\\ldots")`. -/
def normalize_dots (line : String) : String :=
  strReplace (strReplace line "\\cdots" "\\ldots") "\\dots" "\\ldots"

/-- The regex
`^([A-Za-z]+)_(?:\{)?(\d+)(?:\})?\s+([A-Za-z]+)_(?:\{)?(\d+)(?:\})?\s+\\ldots\s+([A-Za-z]+)_(?:\{)?(.+?)(?:\})?$`
of `parse_1d_array_line`. -/
def re1d : RE :=
  reSeq [RE.group 1 (RE.plus true isAsciiAlpha), reLit "_",
    reOpt (reLit "\x7b"), RE.group 2 (RE.plus true isAsciiDigit), reOpt (reLit "\x7d"),
    RE.plus true isWsChar,
    RE.group 3 (RE.plus true isAsciiAlpha), reLit "_",
    reOpt (reLit "\x7b"), RE.group 4 (RE.plus true isAsciiDigit), reOpt (reLit "\x7d"),
    RE.plus true isWsChar,
    reLit "\\ldots",
    RE.plus true isWsChar,
    RE.group 5 (RE.plus true isAsciiAlpha), reLit "_",
    reOpt (reLit "\x7b"), RE.group 6 (RE.plus false reDotCls), reOpt (reLit "\x7d")]

/-- The regex `^([A-Za-z]+)-1$` (`mm` in `parse_1d_array_line`). -/
def re_mm : RE := reSeq [RE.group 1 (RE.plus true isAsciiAlpha), reLit "-1"]

/-- Model of `parse_1d_array_line` (`src/web/input_template.rs` lines
128-165): recognise `A_1 A_2 \ldots A_N` style lines, checking base-symbol
equality explicitly after the syntactic match. -/
def parse_1d_array_line (line : String) : Option (String × String) := do
  let ln := normalize_dots line
  let cap ← fullMatch re1d ln
  let base1 ← capGet cap 1
  let first_idx ← capGet cap 2
  let base2 ← capGet cap 3
  let base3 ← capGet cap 5
  if base1 ≠ base2 ∨ base1 ≠ base3 then none
  else do
    let g6 ← capGet cap 6
    let last_raw := trimMatchesChar '}' (trimMatchesChar '{' (strTrim g6))
    let len_expr :=
      if first_idx = "0" then
        match (fullMatch re_mm last_raw).bind (fun c2 => capGet c2 1) with
        | some ident => snake ident
        | none => "(" ++ sym_expr last_raw ++ ")+1"
      else sym_expr last_raw
    some (snake base1, "[usize; " ++ len_expr ++ "]")

/-! ### The remaining detectors: pair-repeat, vertical scalars, grid -/

/-- The regex `^([A-Za-z]+)_\{?\d+\}?\s+([A-Za-z]+)_\{?\d+\}?$` of
`parse_pair_repeat`. -/
def rePairFirst : RE :=
  reSeq [RE.group 1 (RE.plus true isAsciiAlpha), reLit "_",
    reOpt (reLit "\x7b"), RE.plus true isAsciiDigit, reOpt (reLit "\x7d"),
    RE.plus true isWsChar,
    RE.group 2 (RE.plus true isAsciiAlpha), reLit "_",
    reOpt (reLit "\x7b"), RE.plus true isAsciiDigit, reOpt (reLit "\x7d")]

/-- The regex `^a_(?:\{)?(.+?)(?:\})?\s+b_(?:\{)?(.+?)(?:\})?$` built by
`parse_pair_repeat` for the captured bases `a`, `b` (both are non-empty
alphabetic strings, so `regex::escape` on them is the identity). -/
def rePairLast (a b : String) : RE :=
  reSeq [reLit a, reLit "_", reOpt (reLit "\x7b"),
    RE.group 1 (RE.plus false reDotCls), reOpt (reLit "\x7d"),
    RE.plus true isWsChar,
    reLit b, reLit "_", reOpt (reLit "\x7b"),
    RE.group 2 (RE.plus false reDotCls), reOpt (reLit "\x7d")]

/-- The regex `^([A-Za-z]+)_(?:\{)?1(?:\})?$` used by both
`parse_vertical_scalars` and `parse_grid_lines` for the opening line. -/
def reVert1 : RE :=
  reSeq [RE.group 1 (RE.plus true isAsciiAlpha), reLit "_",
    reOpt (reLit "\x7b"), reLit "1", reOpt (reLit "\x7d")]

/-- The regex `^base_(?:\{)?(.+?)(?:\})?$` for the closing line of a
vertical list (`last_re`), with `base` a captured alphabetic string. -/
def reVertLast (base : String) : RE :=
  reSeq [reLit base, reLit "_", reOpt (reLit "\x7b"),
    RE.group 1 (RE.plus false reDotCls), reOpt (reLit "\x7d")]

/-- Forward scan of `parse_pair_repeat` (source lines 181-199): `j` is the
absolute index, `acc` holds `(count_expr, last_found)`, and the fuel `w`
encodes the window bound `j < idx + 12` (the scan starts at `j = idx + 1`
with `w = 11`, maintaining `w = idx + 12 - j`).  A `\vdots` line is
skipped; a matching line records the first capture and continues; a
non-matching line after a match breaks the scan. -/
def pairScan (a b : String) (lines : List String) :
    Nat → Nat → Option (String × Nat) → Option (String × Nat)
  | 0, _, acc => acc
  | w + 1, j, acc =>
    match lines.get? j with
    | none => acc
    | some l =>
      if strContains l "\\vdots" then pairScan a b lines w (j + 1) acc
      else
        match (fullMatch (rePairLast a b) l).bind (fun c2 => capGet c2 1) with
        | some ce => pairScan a b lines w (j + 1) (some (ce, j))
        | none =>
          match acc with
          | some _ => acc
          | none => pairScan a b lines w (j + 1) none

/-- Model of `parse_pair_repeat` (`src/web/input_template.rs` lines
167-205): recognise `x_1 y_1 / \vdots / x_M y_M` column pairs. -/
def parse_pair_repeat (lines : List String) (idx : Nat) :
    Option (String × String × Nat) := do
  let l0 ← lines.get? idx
  let cap ← fullMatch rePairFirst l0
  let a ← capGet cap 1
  let b ← capGet cap 2
  match pairScan a b lines 11 (idx + 1) none with
  | none => none
  | some (ce, lf) =>
    let count_expr := sym_expr (trimMatchesChar '\x7d' (trimMatchesChar '\x7b' ce))
    some (snake (a ++ b), "[(usize, usize); " ++ count_expr ++ "]", lf + 1 - idx)

/-- Forward scan shared by `parse_vertical_scalars` and `parse_grid_lines`
(source lines 216-230 and 250-264): break at the first line matching the
closing regex, skipping `\vdots` lines; the fuel `w` encodes the window
bound `j < idx + 8` (start `j = idx + 1`, `w = 7`). -/
def vertScan (re : RE) (lines : List String) : Nat → Nat → Option (String × Nat)
  | 0, _ => none
  | w + 1, j =>
    match lines.get? j with
    | none => none
    | some l =>
      if strContains l "\\vdots" then vertScan re lines w (j + 1)
      else
        match (fullMatch re l).bind (fun c2 => capGet c2 1) with
        | some last => some (last, j)
        | none => vertScan re lines w (j + 1)

/-- Model of `parse_vertical_scalars` (`src/web/input_template.rs` lines
207-235): recognise `B_1 / \vdots / B_N` as `b: [usize; n]`, excluding the
string-row base symbol `S`. -/
def parse_vertical_scalars (lines : List String) (idx : Nat) :
    Option (String × String × Nat) := do
  let l0 ← lines.get? idx
  let cap ← fullMatch reVert1 l0
  let base ← capGet cap 1
  if eq_ignore_ascii_case base "S" then none
  else
    match vertScan (reVertLast base) lines 7 (idx + 1) with
    | none => none
    | some (last, lf) =>
      let count_expr := sym_expr (trimMatchesChar '\x7d' (trimMatchesChar '\x7b' last))
      some (snake base, "[usize; " ++ count_expr ++ "]", lf + 1 - idx)

/-- Model of `parse_grid_lines` (`src/web/input_template.rs` lines
237-271): recognise `S_1 / \vdots / S_H` as `s: [Chars; h]`, only for the
base symbol `S` (case-insensitively), reusing a previously recorded height
`known_h` when present. -/
def parse_grid_lines (lines : List String) (idx : Nat) (known_h : Option String) :
    Option (String × String × Nat) := do
  let l0 ← lines.get? idx
  let cap ← fullMatch reVert1 l0
  let base ← capGet cap 1
  if eq_ignore_ascii_case base "S" then
    match vertScan (reVertLast "S") lines 7 (idx + 1) with
    | none => none
    | some (last, lf) =>
      let h_expr :=
        match known_h with
        | some h => h
        | none => sym_expr (trimMatchesChar '\x7d' (trimMatchesChar '\x7b' last))
      some (snake base, "[Chars; " ++ h_expr ++ "]", lf + 1 - idx)
  else none

/-! ### Line classifiers and the declaration synthesizer -/

/-- Model of `is_case_placeholder_line` (source lines 26-29). -/
def is_case_placeholder_line (line : String) : Bool :=
  let l := to_ascii_lower line
  strContains l "case" && (strContains l "_" || strContains l "\\mathrm")

/-- Model of `is_query_placeholder_line` (source lines 31-34). -/
def is_query_placeholder_line (line : String) : Bool :=
  let l := to_ascii_lower line
  strContains l "query" &&
    (strContains l "_" || strContains l "\\mathrm" || strContains l "\\text")

/-- One synthesised declaration.  The source pushes the already formatted
strings `"{name}: {ty},"` and `"/* TODO: {line} */"` into `decls`; the
embedding keeps them structured and formats them with `declString`. -/
inductive Decl where
  /-- A `name: type,` field declaration. -/
  | field (name ty : String) : Decl
  /-- An unrecognised line, kept as a `/* TODO: ... */` marker. -/
  | todo (line : String) : Decl
deriving DecidableEq

/-- The string the source pushes for one declaration. -/
def declString : Decl → String
  | .field n t => n ++ ": " ++ t ++ ","
  | .todo l => "/* TODO: " ++ l ++ " */"

/-- Names of the field declarations of a block (TODO markers carry none). -/
def fieldNames (ds : List Decl) : List String :=
  ds.filterMap (fun d => match d with | .field n _ => some n | .todo _ => none)

/-- The guard of the flat-scalar branch (source lines 322-328): a line
with a space and no ellipsis, subscript, or brace markup. -/
def isFlatScalarLine (ln : String) : Bool :=
  strContains ln " " && !strContains ln "\\ldots" && !strContains ln "\\cdots" &&
    !strContains ln "\\dots" && !strContains ln "_" &&
    !strContains ln "\x7b" && !strContains ln "\x7d"

/-- The guard of the bare-single-symbol branch (source lines 344-348). -/
def isSingleSymbolLine (ln : String) : Bool :=
  !strContains ln " " && !strContains ln "\\ldots" && !strContains ln "\\cdots" &&
    !strContains ln "\\dots"

/-- One token of the flat-scalar branch (source lines 330-338): declare
the token as a `usize` scalar unless its name was already seen, and record
`known_h` when the token normalises to `h`.  The state is
`(seen, decls, known_h)`. -/
def flatTokStep (st : List String × List Decl × Option String) (tok : String) :
    List String × List Decl × Option String :=
  let name := snake tok
  let p :=
    if name ∈ st.1 then (st.1, st.2.1)
    else (name :: st.1, st.2.1 ++ [Decl.field name "usize"])
  (p.1, p.2, if name = "h" then some "h" else st.2.2)

/-- The `while i < lines.len()` loop of `guess_input_from_lines` (source
lines 283-368), with the detector cascade in its fixed priority order.
`i` is the loop index and the fuel starts at `lines.length`; every
iteration advances `i` by the winning detector's `consumed` (always at
least 1, since the scans return an index `lf ≥ idx + 1` so that
`consumed = lf + 1 - idx ≥ 2`, and all other branches advance by 1), so
the loop runs at most `lines.length` iterations and the fuel is never
exhausted. -/
def guessLoop (tIs : Bool) (lines : List String) :
    Nat → Nat → List String → Option String → List Decl → Bool → List Decl × Bool
  | 0, _, _, _, decls, nc => (decls, nc)
  | fuel + 1, i, seen, kh, decls, nc =>
    match lines.get? i with
    | none => (decls, nc)
    | some ln =>
      if is_case_placeholder_line ln || is_query_placeholder_line ln ||
          strContains ln "\\vdots" then
        guessLoop tIs lines fuel (i + 1) seen kh decls nc
      else
        match parse_grid_lines lines i kh with
        | some (name, ty, consumed) =>
          if name ∈ seen then guessLoop tIs lines fuel (i + consumed) seen kh decls true
          else
            guessLoop tIs lines fuel (i + consumed) (name :: seen) kh
              (decls ++ [Decl.field name ty]) true
        | none =>
          match parse_pair_repeat lines i with
          | some (name, ty, consumed) =>
            if name ∈ seen then guessLoop tIs lines fuel (i + consumed) seen kh decls nc
            else
              guessLoop tIs lines fuel (i + consumed) (name :: seen) kh
                (decls ++ [Decl.field name ty]) nc
          | none =>
            match parse_vertical_scalars lines i with
            | some (name, ty, consumed) =>
              if name ∈ seen then guessLoop tIs lines fuel (i + consumed) seen kh decls nc
              else
                guessLoop tIs lines fuel (i + consumed) (name :: seen) kh
                  (decls ++ [Decl.field name ty]) nc
            | none =>
              match parse_1d_array_line ln with
              | some (name, ty) =>
                if name ∈ seen then guessLoop tIs lines fuel (i + 1) seen kh decls nc
                else
                  guessLoop tIs lines fuel (i + 1) (name :: seen) kh
                    (decls ++ [Decl.field name ty]) nc
              | none =>
                if isFlatScalarLine ln then
                  let st := (split_whitespace ln).foldl flatTokStep (seen, decls, kh)
                  guessLoop tIs lines fuel (i + 1) st.1 st.2.2 st.2.1 nc
                else if isSingleSymbolLine ln then
                  let sym := strTrim ln
                  let name := snake sym
                  let tync : String × Bool :=
                    if eq_ignore_ascii_case sym "T" && tIs then ("usize", nc)
                    else if is_string_symbol sym then ("Chars", true)
                    else ("usize", nc)
                  if name ∈ seen then guessLoop tIs lines fuel (i + 1) seen kh decls tync.2
                  else
                    guessLoop tIs lines fuel (i + 1) (name :: seen) kh
                      (decls ++ [Decl.field name tync.1]) tync.2
                else
                  guessLoop tIs lines fuel (i + 1) seen kh (decls ++ [Decl.todo ln]) nc

/-- Model of `guess_input_from_lines` (`src/web/input_template.rs` lines
273-371): run the detector cascade over the lines of one block, returning
the ordered declarations and the string-capability (`needs_chars`) flag.
`t_is_testcases` is the block-level "some line mentions case" check of
source lines 279-281. -/
def guess_input_from_lines (lines : List String) : List Decl × Bool :=
  let tIs := lines.any (fun l => strContains (to_ascii_lower l) "case")
  guessLoop tIs lines lines.length 0 [] none [] false

/-- The `t_is_testcases` condition of source lines 279-281, named so that
theorems can refer to it. -/
def t_is_testcases (lines : List String) : Bool :=
  lines.any (fun l => strContains (to_ascii_lower l) "case")

/-! ### The template renderer and the per-task generation loop -/

/-- One task's Input section: letter and the `<pre>` blocks, as produced
by `parse_task_sections` (source lines 9-13). -/
structure TaskSection where
  /-- The task letter from the `A - Title` heading. -/
  letter : String
  /-- The blocks of trimmed non-empty lines of the Input subsection. -/
  input_blocks : List (List String)
deriving DecidableEq

/-- All lines of all blocks of a task
(`task.input_blocks.iter().flatten()`, source line 374). -/
def combined_lines (task : TaskSection) : List String := task.input_blocks.flatten

/-- The `has_cases` flag of `render_section` (source line 375). -/
def has_cases (task : TaskSection) : Bool :=
  (combined_lines task).any is_case_placeholder_line

/-- The `has_queries` flag of `render_section` (source line 376). -/
def has_queries (task : TaskSection) : Bool :=
  (combined_lines task).any is_query_placeholder_line

/-- Model of `str::parse::<i32>`: optional sign, at least one ASCII digit,
nothing else, and the value must fit in the `i32` range. -/
def parse_i32 (s : String) : Option Int :=
  let p : Int × List Char :=
    match s.toList with
    | '+' :: rest => (1, rest)
    | '-' :: rest => (-1, rest)
    | cs => (1, cs)
  if p.2 = [] then none
  else if p.2.all isAsciiDigit then
    let n : Nat := p.2.foldl (fun acc c => acc * 10 + (c.toNat - '0'.toNat)) 0
    let v : Int := p.1 * n
    if -(2 ^ 31) ≤ v ∧ v ≤ 2 ^ 31 - 1 then some v else none
  else none

/-- The body of the `for b in task.input_blocks.iter().skip(1)` loop that
builds `qtypes` (source lines 437-451): a block contributes a
`(tag, remaining tokens)` pair exactly when it has exactly one line whose
first whitespace-separated token parses as an `i32`. -/
def qtype_of_block (b : List String) : Option (Int × List String) :=
  match b with
  | [l] =>
    match split_whitespace l with
    | [] => none
    | t0 :: rest => (parse_i32 t0).map (fun qt => (qt, rest))
  | _ => none

/-- The `qtypes` vector before sorting (source lines 436-451). -/
def qtypes_of (task : TaskSection) : List (Int × List String) :=
  (task.input_blocks.drop 1).filterMap qtype_of_block

/-- The `qtypes` vector after `qtypes.sort_by_key(|x| x.0)` (source line
452).  Rust's `sort_by_key` is a stable sort, and any two stable sorts by
the same key agree, so it is modelled by insertion sort on the tag. -/
def sorted_qtypes (task : TaskSection) : List (Int × List String) :=
  List.insertionSort (fun a b => a.1 ≤ b.1) (qtypes_of task)

/-- The dispatch line emitted for one `(tag, tokens)` pair (source lines
455-465). -/
def branch_line (p : Int × List String) : String :=
  if p.2.isEmpty then "            " ++ toString p.1 ++ " => \x7b\x7d,"
  else
    let inner := String.intercalate ", " (p.2.map (fun t => snake t ++ ": usize"))
    "            " ++ toString p.1 ++ " => \x7b input! \x7b " ++ inner ++ " \x7d \x7d,"

/-- The import line for one value of `needs_chars` (source lines 384-388
and 412). -/
def import_line (needs_chars : Bool) : String :=
  if needs_chars then "use proconio::\x7binput, marker::Chars\x7d;" else "use proconio::input;"

/-- Model of `render_section` (`src/web/input_template.rs` lines 373-476)
producing the `out` line vector; the source returns `out.join("\n")`,
which `render_section` below applies. -/
def render_section_lines (task : TaskSection) : Except String (List String) :=
  match task.input_blocks.head? with
  | none => .error (task.letter ++ ": missing input format <pre>")
  | some first =>
    let g := guess_input_from_lines first
    let needs_chars := g.2
    let out : List String := [import_line needs_chars, "fn main() \x7b"]
    if !has_cases task && !has_queries task then
      .ok (out ++ ["    input! \x7b"] ++ g.1.map (fun d => "        " ++ declString d) ++
        ["    \x7d", "\x7d"])
    else
      let out := out ++ ["    input! \x7b"] ++
        g.1.map (fun d => "        " ++ declString d) ++ ["    \x7d"]
      if has_cases task then
        match task.input_blocks.get? 1 with
        | some second =>
          let g2 := guess_input_from_lines second
          let out := if g2.2 && !needs_chars then out.set 0 (import_line true) else out
          .ok (out ++ ["    for _ in 0..t \x7b", "        input! \x7b"] ++
            g2.1.map (fun d => "            " ++ declString d) ++
            ["        \x7d", "        /* TODO: solve testcase */", "    \x7d", "\x7d"])
        | none =>
          .ok (out ++ ["    for _ in 0..t \x7b",
            "        input! \x7b /* TODO: per-testcase fields */ \x7d",
            "        /* TODO: solve testcase */", "    \x7d", "\x7d"])
      else
        let out := out ++ ["    for _ in 0..q \x7b", "        input! \x7b qt: usize \x7d"]
        let qts := sorted_qtypes task
        let out :=
          if !qts.isEmpty then
            out ++ ["        match qt \x7b"] ++ qts.map branch_line ++
              ["            _ => unreachable!(),", "        \x7d"]
          else out ++ ["        /* TODO: per-query fields */"]
        .ok (out ++ ["        /* TODO: process query */", "    \x7d", "\x7d"])

/-- Model of `render_section`, joined to the final string as in the
source. -/
def render_section (task : TaskSection) : Except String String :=
  (render_section_lines task).map (fun out => String.intercalate "\n" out)

/-- The generated file name for a task: `heck`'s `to_kebab_case` on the
single-uppercase-letter task names is just ASCII lowercasing, plus the
`.rs` extension (source lines 491-493; the `src/bin` directory prefix is
elided). -/
def src_file_name (letter : String) : String := to_ascii_lower letter ++ ".rs"

/-- The warning `generate_template` emits when a task fails to render
(source line 499). -/
def warn_message (letter err : String) : String :=
  "render_section failed at " ++ letter ++ ": " ++ err

/-- The `for task in &sections` loop of `generate_template` (source lines
490-502): successful renders are collected as (file name, content) pairs
(the source inserts them into a `HashMap`), failures become warnings; the
loop never aborts. -/
def generate_from_sections (sections : List TaskSection) :
    List (String × String) × List String :=
  sections.foldl
    (fun acc task =>
      match render_section task with
      | .ok content => (acc.1 ++ [(src_file_name task.letter, content)], acc.2)
      | .error err => (acc.1, acc.2 ++ [warn_message task.letter err]))
    ([], [])

/-! ### Auxiliary definitions used by the verification -/

/-- Characters `snake` can emit: an underscore, or a lowercase-stable
ASCII alphanumeric character. -/
def goodChar (c : Char) : Prop :=
  c = '_' ∨ (isAsciiAlnum c = true ∧ asciiLowerChar c = c)

/-- The no-consecutive-underscores relation maintained by `snake`. -/
def noDUnd (a b : Char) : Prop := ¬(a = '_' ∧ b = '_')

/-- The two-sided underscore trim at list level; `trimMatchesChar '_'`
is this function under `String.mk`. -/
def trimUndList (l : List Char) : List Char :=
  ((l.dropWhile (· = '_')).reverse.dropWhile (· = '_')).reverse

/-- The success entry a task contributes to the generated-file map, if
any. -/
def ok_entry (t : TaskSection) : Option (String × String) :=
  match render_section t with
  | .ok c => some (src_file_name t.letter, c)
  | .error _ => none

/-- The warning a task contributes, if any. -/
def warn_entry (t : TaskSection) : Option String :=
  match render_section t with
  | .ok _ => none
  | .error e => some (warn_message t.letter e)

/-- Total order instance for the query-tag comparison used by the
dispatch sort. -/
instance : IsTotal (Int × List String) (fun a b => a.1 ≤ b.1) :=
  ⟨fun a b => le_total a.1 b.1⟩

/-- Transitivity instance for the query-tag comparison used by the
dispatch sort. -/
instance : IsTrans (Int × List String) (fun a b => a.1 ≤ b.1) :=
  ⟨fun _ _ _ h1 h2 => le_trans h1 h2⟩

/-! ### Character-level facts for the `snake` idempotence proof -/

theorem upper_bounds_of_le {c : Char} (h : 'A' ≤ c ∧ c ≤ 'Z') :
    65 ≤ c.toNat ∧ c.toNat ≤ 90 := by
  refine ⟨?_, ?_⟩
  · simpa [Char.le_def] using h.1
  · simpa [Char.le_def] using h.2

theorem toNat_lower_of_upper {c : Char} (h1 : 65 ≤ c.toNat) (h2 : c.toNat ≤ 90) :
    (Char.ofNat (c.toNat + 32)).toNat = c.toNat + 32 := by
  have hv : (c.toNat + 32).isValidChar := Or.inl (by omega)
  unfold Char.ofNat
  simp [hv]
  rfl

theorem asciiLowerChar_idem (c : Char) :
    asciiLowerChar (asciiLowerChar c) = asciiLowerChar c := by
  by_cases h : 'A' ≤ c ∧ c ≤ 'Z'
  · obtain ⟨h1, h2⟩ := upper_bounds_of_le h
    have ht := toNat_lower_of_upper h1 h2
    have hlc : asciiLowerChar c = Char.ofNat (c.toNat + 32) := by
      unfold asciiLowerChar; rw [if_pos h]
    rw [hlc]
    unfold asciiLowerChar
    rw [if_neg]
    intro hcon
    have h3 : (Char.ofNat (c.toNat + 32)).toNat ≤ 90 := by
      simpa [Char.le_def] using hcon.2
    omega
  · have hlc : asciiLowerChar c = c := by unfold asciiLowerChar; rw [if_neg h]
    rw [hlc, hlc]

theorem isAsciiAlnum_iff (c : Char) :
    isAsciiAlnum c = true ↔
      (97 ≤ c.toNat ∧ c.toNat ≤ 122) ∨ (65 ≤ c.toNat ∧ c.toNat ≤ 90) ∨
        (48 ≤ c.toNat ∧ c.toNat ≤ 57) := by
  simp [isAsciiAlnum, Char.le_def]
  tauto

theorem isAsciiAlnum_lower (c : Char) (h : isAsciiAlnum c = true) :
    isAsciiAlnum (asciiLowerChar c) = true := by
  by_cases hu : 'A' ≤ c ∧ c ≤ 'Z'
  · obtain ⟨h1, h2⟩ := upper_bounds_of_le hu
    have ht := toNat_lower_of_upper h1 h2
    have hlc : asciiLowerChar c = Char.ofNat (c.toNat + 32) := by
      unfold asciiLowerChar; rw [if_pos hu]
    rw [hlc, isAsciiAlnum_iff, ht]
    left
    rw [isAsciiAlnum_iff] at h
    omega
  · have hlc : asciiLowerChar c = c := by unfold asciiLowerChar; rw [if_neg hu]
    rw [hlc]; exact h

theorem isAsciiAlnum_ne_und {c : Char} (h : isAsciiAlnum c = true) : c ≠ '_' := by
  intro heq
  rw [heq] at h
  exact absurd h (by decide)


theorem snakeCore_chars (l : List Char) :
    ∀ (prev : Bool) (c : Char), c ∈ snakeCore l prev → goodChar c := by
  induction l with
  | nil => intro prev c hc; simp [snakeCore] at hc
  | cons ch rest ih =>
    intro prev c hc
    by_cases ha : isAsciiAlnum ch = true
    · have hne := isAsciiAlnum_ne_und ha
      rw [show snakeCore (ch :: rest) prev = asciiLowerChar ch :: snakeCore rest false by
        simp [snakeCore, ha, hne]] at hc
      rcases List.mem_cons.mp hc with h | h
      · exact Or.inr ⟨h ▸ isAsciiAlnum_lower ch ha, h ▸ asciiLowerChar_idem ch⟩
      · exact ih false c h
    · rw [show snakeCore (ch :: rest) prev =
          (if prev then [] else ['_']) ++ snakeCore rest true by simp [snakeCore, ha]] at hc
      rcases List.mem_append.mp hc with h | h
      · cases prev with
        | true => simp at h
        | false => simp at h; exact Or.inl h
      · exact ih true c h

theorem snakeCore_chain (l : List Char) :
    ∀ prev : Bool, List.Chain' noDUnd (snakeCore l prev) ∧
      (prev = true → (snakeCore l prev).head? ≠ some '_') := by
  induction l with
  | nil => intro prev; refine ⟨by simp [snakeCore], fun _ => by simp [snakeCore]⟩
  | cons ch rest ih =>
    intro prev
    by_cases ha : isAsciiAlnum ch = true
    · have hne := isAsciiAlnum_ne_und ha
      have hlne : asciiLowerChar ch ≠ '_' := isAsciiAlnum_ne_und (isAsciiAlnum_lower ch ha)
      have hout : snakeCore (ch :: rest) prev = asciiLowerChar ch :: snakeCore rest false := by
        simp [snakeCore, ha, hne]
      rw [hout]
      refine ⟨List.chain'_cons'.mpr ⟨fun y _ => fun hcon => hlne hcon.1, (ih false).1⟩, ?_⟩
      intro _ hcon
      exact hlne (by simpa using hcon)
    · have hout : snakeCore (ch :: rest) prev =
          (if prev then [] else ['_']) ++ snakeCore rest true := by simp [snakeCore, ha]
      cases prev with
      | true =>
        have hout2 : snakeCore (ch :: rest) true = snakeCore rest true := by
          rw [hout]; simp
        rw [hout2]
        exact ⟨(ih true).1, fun _ => (ih true).2 rfl⟩
      | false =>
        rw [hout]
        refine ⟨?_, fun hcon => by simp at hcon⟩
        simp only [if_neg Bool.false_ne_true, List.singleton_append]
        refine List.chain'_cons'.mpr ⟨fun y hy => fun hcon => ?_, (ih true).1⟩
        apply (ih true).2 rfl
        rw [hy, hcon.2]


theorem head?_dropWhile_ne {α : Type} (p : α → Bool) (l : List α) (c : α)
    (h : (l.dropWhile p).head? = some c) : p c = false := by
  induction l with
  | nil => simp at h
  | cons x rest ih =>
    rw [List.dropWhile_cons] at h
    by_cases hp : p x
    · rw [if_pos hp] at h; exact ih h
    · rw [if_neg hp] at h
      simp only [List.head?_cons, Option.some.injEq] at h
      rw [← h]
      exact Bool.not_eq_true _ ▸ (by simpa using hp)

theorem dropWhile_eq_self_of_head {α : Type} (p : α → Bool) (l : List α)
    (h : ∀ c, l.head? = some c → p c = false) : l.dropWhile p = l := by
  cases l with
  | nil => simp
  | cons x rest =>
    rw [List.dropWhile_cons, if_neg]
    simp [h x rfl]

theorem trimUndList_mem (l : List Char) (c : Char) (h : c ∈ trimUndList l) : c ∈ l := by
  unfold trimUndList at h
  rw [List.mem_reverse] at h
  have h1 := (List.dropWhile_sublist (l := (l.dropWhile (· = '_')).reverse) (· = '_')).mem h
  rw [List.mem_reverse] at h1
  exact (List.dropWhile_sublist (· = '_')).mem h1

theorem chain_flip_noDUnd {l : List Char} (h : List.Chain' noDUnd l) :
    List.Chain' (flip noDUnd) l :=
  h.imp (fun _ _ hr => fun hcon => hr ⟨hcon.2, hcon.1⟩)

theorem trimUndList_chain (l : List Char) (h : List.Chain' noDUnd l) :
    List.Chain' noDUnd (trimUndList l) := by
  unfold trimUndList
  have h1 : List.Chain' noDUnd (l.dropWhile (· = '_')) :=
    h.suffix (List.dropWhile_suffix _)
  have h2 : List.Chain' noDUnd (l.dropWhile (· = '_')).reverse :=
    List.chain'_reverse.mpr (chain_flip_noDUnd h1)
  have h3 : List.Chain' noDUnd ((l.dropWhile (· = '_')).reverse.dropWhile (· = '_')) :=
    h2.suffix (List.dropWhile_suffix _)
  exact List.chain'_reverse.mpr (chain_flip_noDUnd h3)

theorem trimUndList_head (l : List Char) (c : Char)
    (h : (trimUndList l).head? = some c) : c ≠ '_' := by
  unfold trimUndList at h
  set u := l.dropWhile (· = '_') with hu
  set v := u.reverse.dropWhile (· = '_') with hv
  obtain ⟨w, hw⟩ : v <:+ u.reverse := List.dropWhile_suffix _
  have hpre : v.reverse <+: u := by
    refine ⟨w.reverse, ?_⟩
    have := congrArg List.reverse hw
    simpa using this
  obtain ⟨w2, hw2⟩ := hpre
  cases hrev : v.reverse with
  | nil => rw [hrev] at h; simp at h
  | cons x xs =>
    rw [hrev] at h
    simp only [List.head?_cons, Option.some.injEq] at h
    rw [hrev] at hw2
    have hx : u.head? = some x := by rw [← hw2]; rfl
    rw [hu] at hx
    have hxne := head?_dropWhile_ne (· = '_') l x hx
    rw [← h]
    simpa using hxne

theorem trimUndList_revhead (l : List Char) (c : Char)
    (h : (trimUndList l).reverse.head? = some c) : c ≠ '_' := by
  unfold trimUndList at h
  rw [List.reverse_reverse] at h
  have := head?_dropWhile_ne (· = '_') (l.dropWhile (· = '_')).reverse c h
  simpa using this

theorem trimUndList_fixed (t : List Char)
    (h1 : ∀ c, t.head? = some c → c ≠ '_')
    (h2 : ∀ c, t.reverse.head? = some c → c ≠ '_') : trimUndList t = t := by
  unfold trimUndList
  rw [dropWhile_eq_self_of_head _ t (fun c hc => by simpa using h1 c hc)]
  rw [dropWhile_eq_self_of_head _ t.reverse (fun c hc => by simpa using h2 c hc)]
  rw [List.reverse_reverse]

theorem snakeCore_of_good (t : List Char) :
    ∀ prev : Bool, (∀ c ∈ t, goodChar c) → List.Chain' noDUnd t →
      (prev = true → t.head? ≠ some '_') → snakeCore t prev = t := by
  induction t with
  | nil => intro prev _ _ _; cases prev <;> rfl
  | cons c rest ih =>
    intro prev hg hch hh
    rcases hg c (by simp) with hund | ⟨halnum, hlow⟩
    · subst hund
      have hprev : prev = false := by
        cases prev with
        | false => rfl
        | true => exact absurd rfl (fun h => hh h (by simp))
      subst hprev
      have ha : isAsciiAlnum '_' = true → False := by decide
      have hout : snakeCore ('_' :: rest) false = '_' :: snakeCore rest true := by
        simp [snakeCore, show ¬ isAsciiAlnum '_' = true from ha]
      rw [hout]
      have hresth : (true : Bool) = true → rest.head? ≠ some '_' := by
        intro _ hcon
        have := (List.chain'_cons'.mp hch).1 '_' hcon
        exact this ⟨rfl, rfl⟩
      rw [ih true (fun d hd => hg d (by simp [hd])) (List.chain'_cons'.mp hch).2 hresth]
    · have hne := isAsciiAlnum_ne_und halnum
      have hout : snakeCore (c :: rest) prev = asciiLowerChar c :: snakeCore rest false := by
        simp [snakeCore, halnum, hne]
      rw [hout, hlow,
        ih false (fun d hd => hg d (by simp [hd])) (List.chain'_cons'.mp hch).2
          (fun hcon => by simp at hcon)]

/-- C8: the identifier normaliser `snake` is idempotent: applying it twice
gives the same result as applying it once, for every input string. -/
theorem snake_idempotent (s : String) : snake (snake s) = snake s := by
  have h1 : snake s = String.mk (trimUndList (snakeCore s.toList false)) := rfl
  set l := snakeCore s.toList false with hl
  set t := trimUndList l with ht
  have hgood : ∀ c ∈ t, goodChar c := fun c hc =>
    snakeCore_chars s.toList false c (trimUndList_mem l c hc)
  have hchain : List.Chain' noDUnd t := trimUndList_chain l (snakeCore_chain s.toList false).1
  have hcore : snakeCore t false = t :=
    snakeCore_of_good t false hgood hchain (fun hcon => absurd hcon Bool.false_ne_true)
  have h2 : snake (snake s) = String.mk (trimUndList (snakeCore t false)) := by
    rw [h1]; rfl
  rw [h2, hcore,
    trimUndList_fixed t (fun c hc => trimUndList_head l c hc)
      (fun c hc => trimUndList_revhead l c hc)]
  exact h1.symm

/-- C7: the size-expression normaliser `sym_expr` maps the token "N-1" to
"n-1" (identifier-minus-digits form) and the token "5N" to "5*n" (leading
numeric coefficient form). -/
theorem sym_expr_dash_and_coef : sym_expr "N-1" = "n-1" ∧ sym_expr "5N" = "5*n" := by
  exact ⟨rfl, rfl⟩

/-- C6: the 1D-array-with-ellipsis detector checks base-symbol equality
explicitly after the syntactic regex match: whenever the pattern matches a
line but the three captured base symbols are not all textually identical,
`parse_1d_array_line` yields no match. -/
theorem parse_1d_mismatched_bases_none (line : String) (cap : Caps) (b1 b2 b3 : String)
    (hm : fullMatch re1d (normalize_dots line) = some cap)
    (h1 : capGet cap 1 = some b1) (h3 : capGet cap 3 = some b2)
    (h5 : capGet cap 5 = some b3) (hne : b1 ≠ b2 ∨ b1 ≠ b3) :
    parse_1d_array_line line = none := by
  unfold parse_1d_array_line
  simp only [hm, Option.bind_eq_bind, Option.some_bind, h1, h3, h5]
  cases h2 : capGet cap 2 with
  | none => simp [h2]
  | some fi =>
    simp only [h2, Option.some_bind]
    rw [if_pos hne]

/-- Witness for C6: the concrete line "A_1 B_2 \ldots A_N" matches the
pattern syntactically with bases A, B, A, and the detector rejects it. -/
theorem parse_1d_mismatched_bases_none_witness :
    parse_1d_array_line "A_1 B_2 \\ldots A_N" = none :=
  parse_1d_mismatched_bases_none "A_1 B_2 \\ldots A_N"
    [(6, ['N']), (5, ['A']), (4, ['2']), (3, ['B']), (2, ['1']), (1, ['A'])]
    "A" "B" "A" (by decide) (by decide) (by decide) (by decide)
    (Or.inl (by decide))

/-- Counterexample for C3 as stated: on the block
["A_1 A_2 \ldots A_N", "N"] the 1D-array detection at the first line
succeeds and yields the size expression "n", yet the identifier n is only
declared by the later line "N" — the declaration list is
[a: [usize; n], n: usize] — so the size expression references an
identifier first declared later in the same block. -/
theorem size_expr_forward_reference_counterexample :
    parse_1d_array_line "A_1 A_2 \\ldots A_N" = some ("a", "[usize; n]") ∧
    guess_input_from_lines ["A_1 A_2 \\ldots A_N", "N"] =
      ([Decl.field "a" "[usize; n]", Decl.field "n" "usize"], false) ∧
    fieldNames (guess_input_from_lines ["A_1 A_2 \\ldots A_N", "N"]).1 = ["a", "n"] :=
  ⟨by decide, by decide, by decide⟩

/-- C3 amended: only the grid detector ties its size expression to an
already-declared identifier — whenever a height identifier was recorded
(`known_h`), a successful grid detection's type uses exactly that
identifier as its size expression.  The other detectors derive the size
expression syntactically from the closing line, without checking that it
was declared earlier, so a forward reference is possible. -/
theorem grid_size_uses_known_h (lines : List String) (idx : Nat) (h : String)
    (name ty : String) (c : Nat)
    (hg : parse_grid_lines lines idx (some h) = some (name, ty, c)) :
    ty = "[Chars; " ++ h ++ "]" := by
  unfold parse_grid_lines at hg
  simp only [Option.bind_eq_bind, Option.bind_eq_some] at hg
  obtain ⟨l0, hl0, hg⟩ := hg
  obtain ⟨cap, hcap, hg⟩ := hg
  obtain ⟨base, hbase, hg⟩ := hg
  by_cases hs : eq_ignore_ascii_case base "S" = true
  · rw [if_pos hs] at hg
    cases hscan : vertScan (reVertLast "S") lines 7 (idx + 1) with
    | none => rw [hscan] at hg; exact absurd hg (by simp)
    | some p =>
      rw [hscan] at hg
      cases p with
      | mk last lf =>
        simp only [Option.some.injEq, Prod.mk.injEq] at hg
        exact hg.2.1.symm
  · rw [if_neg hs] at hg
    exact absurd hg (by simp)

/-- Witness for the amended C3 at a concrete grid block with a recorded
height. -/
theorem grid_size_uses_known_h_witness : "[Chars; h]" = "[Chars; " ++ "h" ++ "]" :=
  grid_size_uses_known_h ["S_1", "\\vdots", "S_H"] 0 "h" "s" "[Chars; h]" 3 (by decide)

/-- C10: the grid-of-strings detector fires only when the captured base
symbol equals "S" case-insensitively, while the reserved string-symbol set
is \x7bS, T, U, X\x7d; consequently vertical lists with base T, U or X are
declared as usize arrays and do not set the string-capability flag. -/
theorem grid_only_s_and_vertical_numeric :
    (∀ (lines : List String) (idx : Nat) (kh : Option String) (name ty : String) (c : Nat),
      parse_grid_lines lines idx kh = some (name, ty, c) →
        ∃ l cap base, lines.get? idx = some l ∧ fullMatch reVert1 l = some cap ∧
          capGet cap 1 = some base ∧ eq_ignore_ascii_case base "S" = true) ∧
    (is_string_symbol "S" = true ∧ is_string_symbol "T" = true ∧
      is_string_symbol "U" = true ∧ is_string_symbol "X" = true) ∧
    guess_input_from_lines ["T_1", "\\vdots", "T_N"]
      = ([Decl.field "t" "[usize; n]"], false) ∧
    guess_input_from_lines ["U_1", "\\vdots", "U_N"]
      = ([Decl.field "u" "[usize; n]"], false) ∧
    guess_input_from_lines ["X_1", "\\vdots", "X_N"]
      = ([Decl.field "x" "[usize; n]"], false) := by
  refine ⟨?_, by decide, by decide, by decide, by decide⟩
  intro lines idx kh name ty c hg
  unfold parse_grid_lines at hg
  simp only [Option.bind_eq_bind, Option.bind_eq_some] at hg
  obtain ⟨l0, hl0, hg⟩ := hg
  obtain ⟨cap, hcap, hg⟩ := hg
  obtain ⟨base, hbase, hg⟩ := hg
  by_cases hs : eq_ignore_ascii_case base "S" = true
  · exact ⟨l0, cap, base, hl0, hcap, hbase, hs⟩
  · rw [if_neg hs] at hg
    exact absurd hg (by simp)

/-- Witness for C10 at a concrete grid block where the detector fires. -/
theorem grid_only_s_and_vertical_numeric_witness :
    ∃ l cap base, (["S_1", "\\vdots", "S_H"] : List String).get? 0 = some l ∧
      fullMatch reVert1 l = some cap ∧ capGet cap 1 = some base ∧
      eq_ignore_ascii_case base "S" = true :=
  grid_only_s_and_vertical_numeric.1 ["S_1", "\\vdots", "S_H"] 0 none
    "s" "[Chars; h]" 3 (by decide)

theorem parse_grid_of_t (lines : List String) (i : Nat) (kh : Option String)
    (hline : lines.get? i = some "T") : parse_grid_lines lines i kh = none := by
  unfold parse_grid_lines
  rw [hline]
  rfl

theorem parse_pair_of_t (lines : List String) (i : Nat)
    (hline : lines.get? i = some "T") : parse_pair_repeat lines i = none := by
  unfold parse_pair_repeat
  rw [hline]
  rfl

theorem parse_vertical_of_t (lines : List String) (i : Nat)
    (hline : lines.get? i = some "T") : parse_vertical_scalars lines i = none := by
  unfold parse_vertical_scalars
  rw [hline]
  rfl

/-- C5: when the synthesizer reaches the bare single-symbol line "T"
(no spaces, no ellipsis) whose name is not yet declared, it declares
`t: usize` when some line of the block mentions "case" (the
`t_is_testcases` condition); otherwise — "T" being in the reserved
string-symbol set — it declares `t: Chars` and sets the string-capability
flag, leaving the rest of the loop state unchanged. -/
theorem bare_t_declaration (lines : List String) (fuel i : Nat) (seen : List String)
    (kh : Option String) (decls : List Decl) (nc : Bool)
    (hline : lines.get? i = some "T") (hseen : ¬ "t" ∈ seen) :
    guessLoop (t_is_testcases lines) lines (fuel + 1) i seen kh decls nc =
      guessLoop (t_is_testcases lines) lines fuel (i + 1) ("t" :: seen) kh
        (decls ++ [Decl.field "t" (if t_is_testcases lines then "usize" else "Chars")])
        (if t_is_testcases lines then nc else true) ∧
    is_string_symbol "T" = true := by
  refine ⟨?_, by decide⟩
  have hgrid := parse_grid_of_t lines i kh hline
  have hpair := parse_pair_of_t lines i hline
  have hvert := parse_vertical_of_t lines i hline
  cases htis : t_is_testcases lines with
  | true =>
    conv_lhs => rw [guessLoop.eq_def]
    simp only [hline, hgrid, hpair, hvert,
      show parse_1d_array_line "T" = none from rfl,
      show (is_case_placeholder_line "T" || is_query_placeholder_line "T" ||
        strContains "T" "\\vdots") = false from rfl,
      show isFlatScalarLine "T" = false from rfl,
      show isSingleSymbolLine "T" = true from rfl,
      show strTrim "T" = "T" from rfl,
      show snake "T" = "t" from rfl,
      show eq_ignore_ascii_case "T" "T" = true from rfl,
      show is_string_symbol "T" = true from rfl,
      hseen, Bool.false_eq_true, Bool.true_and, if_false, if_true, ite_false, ite_true]
  | false =>
    conv_lhs => rw [guessLoop.eq_def]
    simp only [hline, hgrid, hpair, hvert,
      show parse_1d_array_line "T" = none from rfl,
      show (is_case_placeholder_line "T" || is_query_placeholder_line "T" ||
        strContains "T" "\\vdots") = false from rfl,
      show isFlatScalarLine "T" = false from rfl,
      show isSingleSymbolLine "T" = true from rfl,
      show strTrim "T" = "T" from rfl,
      show snake "T" = "t" from rfl,
      show eq_ignore_ascii_case "T" "T" = true from rfl,
      show is_string_symbol "T" = true from rfl,
      hseen, Bool.false_eq_true, Bool.true_and, Bool.false_and,
      if_false, if_true, ite_false, ite_true]

/-- Witness for C5 at the one-line block ["T"], which mentions no
test-case marker, so "T" is declared as a Chars string row with the
string-capability flag set. -/
theorem bare_t_declaration_witness :
    guessLoop (t_is_testcases ["T"]) ["T"] 1 0 [] none [] false =
      guessLoop (t_is_testcases ["T"]) ["T"] 0 1 ["t"] none
        [Decl.field "t" (if t_is_testcases ["T"] then "usize" else "Chars")]
        (if t_is_testcases ["T"] then false else true) ∧
    is_string_symbol "T" = true :=
  bare_t_declaration ["T"] 0 0 [] none [] false (by decide) (by decide)

theorem fieldNames_append (a b : List Decl) :
    fieldNames (a ++ b) = fieldNames a ++ fieldNames b := by
  simp [fieldNames, List.filterMap_append]

theorem inv_insert (seen : List String) (decls : List Decl) (n t : String)
    (h1 : ∀ m ∈ fieldNames decls, m ∈ seen) (h2 : (fieldNames decls).Nodup)
    (hn : ¬ n ∈ seen) :
    (∀ m ∈ fieldNames (decls ++ [Decl.field n t]), m ∈ n :: seen) ∧
      (fieldNames (decls ++ [Decl.field n t])).Nodup := by
  have hf : fieldNames (decls ++ [Decl.field n t]) = fieldNames decls ++ [n] := by
    rw [fieldNames_append]; rfl
  constructor
  · intro m hm
    rw [hf] at hm
    rcases List.mem_append.mp hm with h | h
    · exact List.mem_cons_of_mem _ (h1 m h)
    · simp only [List.mem_singleton] at h
      subst h
      exact List.mem_cons_self _ _
  · rw [hf]
    refine List.Nodup.append h2 (List.nodup_singleton n) ?_
    intro m hm hmem
    simp only [List.mem_singleton] at hmem
    subst hmem
    exact hn (h1 m hm)

theorem flatFold_inv (toks : List String) :
    ∀ st : List String × List Decl × Option String,
      (∀ n ∈ fieldNames st.2.1, n ∈ st.1) → (fieldNames st.2.1).Nodup →
      (∀ n ∈ fieldNames (toks.foldl flatTokStep st).2.1,
          n ∈ (toks.foldl flatTokStep st).1) ∧
        (fieldNames (toks.foldl flatTokStep st).2.1).Nodup := by
  induction toks with
  | nil => intro st h1 h2; exact ⟨h1, h2⟩
  | cons tok rest ih =>
    intro st h1 h2
    rw [List.foldl_cons]
    by_cases hmem : snake tok ∈ st.1
    · have hstep : flatTokStep st tok =
          (st.1, st.2.1, if snake tok = "h" then some "h" else st.2.2) := by
        simp [flatTokStep, hmem]
      rw [hstep]
      exact ih _ h1 h2
    · have hstep : flatTokStep st tok =
          (snake tok :: st.1, st.2.1 ++ [Decl.field (snake tok) "usize"],
            if snake tok = "h" then some "h" else st.2.2) := by
        simp [flatTokStep, hmem]
      rw [hstep]
      obtain ⟨ha, hb⟩ := inv_insert st.1 st.2.1 (snake tok) "usize" h1 h2 hmem
      exact ih _ ha hb

theorem guessLoop_nodup (tIs : Bool) (lines : List String) :
    ∀ (fuel : Nat) (i : Nat) (seen : List String) (kh : Option String)
      (decls : List Decl) (nc : Bool),
      (∀ n ∈ fieldNames decls, n ∈ seen) → (fieldNames decls).Nodup →
      (fieldNames (guessLoop tIs lines fuel i seen kh decls nc).1).Nodup := by
  intro fuel
  induction fuel with
  | zero => intro i seen kh decls nc _ h2; exact h2
  | succ fuel ih =>
    intro i seen kh decls nc h1 h2
    rw [guessLoop.eq_2]
    split
    · exact h2
    · split
      · exact ih _ _ _ _ _ h1 h2
      · split
        · split
          · exact ih _ _ _ _ _ h1 h2
          · next name ty consumed _ hmem =>
            obtain ⟨ha, hb⟩ := inv_insert seen decls name ty h1 h2 hmem
            exact ih _ _ _ _ _ ha hb
        · split
          · split
            · exact ih _ _ _ _ _ h1 h2
            · next name ty consumed _ hmem =>
              obtain ⟨ha, hb⟩ := inv_insert seen decls name ty h1 h2 hmem
              exact ih _ _ _ _ _ ha hb
          · split
            · split
              · exact ih _ _ _ _ _ h1 h2
              · next name ty consumed _ hmem =>
                obtain ⟨ha, hb⟩ := inv_insert seen decls name ty h1 h2 hmem
                exact ih _ _ _ _ _ ha hb
            · split
              · split
                · exact ih _ _ _ _ _ h1 h2
                · next name ty _ hmem =>
                  obtain ⟨ha, hb⟩ := inv_insert seen decls name ty h1 h2 hmem
                  exact ih _ _ _ _ _ ha hb
              · split
                · obtain ⟨ha, hb⟩ := flatFold_inv (split_whitespace _) (seen, decls, kh) h1 h2
                  exact ih _ _ _ _ _ ha hb
                · split
                  · dsimp only
                    split
                    · exact ih _ _ _ _ _ h1 h2
                    · next hmem =>
                      obtain ⟨ha, hb⟩ := inv_insert seen decls _ _ h1 h2 hmem
                      exact ih _ _ _ _ _ ha hb
                  · have htodo : ∀ ln, fieldNames (decls ++ [Decl.todo ln]) = fieldNames decls := by
                      intro ln
                      rw [fieldNames_append]
                      simp [fieldNames]
                    exact ih _ _ _ _ _ (fun n hn => h1 n ((htodo _) ▸ hn)) ((htodo _) ▸ h2)

/-- C2: the declaration synthesizer never emits two field declarations
with the same name — for every input line sequence the declared names are
pairwise distinct — and re-encountering a previously declared name skips
the duplicate while the cursor still advances, as shown by the repeated
block ["N M", "N M"]. -/
theorem guess_input_nodup :
    (∀ lines : List String, (fieldNames (guess_input_from_lines lines).1).Nodup) ∧
    guess_input_from_lines ["N M", "N M"]
      = ([Decl.field "n" "usize", Decl.field "m" "usize"], false) := by
  constructor
  · intro lines
    exact guessLoop_nodup _ lines lines.length 0 [] none [] false
      (fun n hn => absurd hn (by simp [fieldNames])) (by simp [fieldNames])
  · decide


theorem generate_fold_acc (sections : List TaskSection) :
    ∀ acc : List (String × String) × List String,
      sections.foldl
        (fun acc task =>
          match render_section task with
          | .ok content => (acc.1 ++ [(src_file_name task.letter, content)], acc.2)
          | .error err => (acc.1, acc.2 ++ [warn_message task.letter err]))
        acc =
      (acc.1 ++ sections.filterMap ok_entry, acc.2 ++ sections.filterMap warn_entry) := by
  induction sections with
  | nil => intro acc; simp
  | cons t rest ih =>
    intro acc
    rw [List.foldl_cons]
    cases hr : render_section t with
    | ok c =>
      have hok : ok_entry t = some (src_file_name t.letter, c) := by
        unfold ok_entry; rw [hr]
      have hwarn : warn_entry t = none := by
        unfold warn_entry; rw [hr]
      simp only [hr, List.filterMap_cons, hok, hwarn]
      rw [ih]
      simp
    | error e =>
      have hok : ok_entry t = none := by
        unfold ok_entry; rw [hr]
      have hwarn : warn_entry t = some (warn_message t.letter e) := by
        unfold warn_entry; rw [hr]
      simp only [hr, List.filterMap_cons, hok, hwarn]
      rw [ih]
      simp

/-- C9: the generation loop isolates per-task failures: the batch result
collects exactly one (file, content) entry per successfully rendered task,
in order, and one warning (keyed by the task letter) per failed task; a
task with no input block at all fails with the missing-`<pre>` error and
contributes no output entry, while the other tasks still produce theirs. -/
theorem batch_isolates_failures :
    (∀ sections : List TaskSection,
      generate_from_sections sections =
        (sections.filterMap ok_entry, sections.filterMap warn_entry)) ∧
    (∀ task : TaskSection, task.input_blocks = [] →
      render_section task = .error (task.letter ++ ": missing input format <pre>") ∧
        ok_entry task = none ∧
        warn_entry task = some (warn_message task.letter
          (task.letter ++ ": missing input format <pre>"))) := by
  constructor
  · intro sections
    unfold generate_from_sections
    rw [generate_fold_acc]
    simp
  · intro task hblocks
    have hr : render_section task = .error (task.letter ++ ": missing input format <pre>") := by
      unfold render_section render_section_lines
      rw [hblocks]
      rfl
    refine ⟨hr, ?_, ?_⟩
    · unfold ok_entry; rw [hr]
    · unfold warn_entry; rw [hr]

/-- Witness for C9: a two-task batch where task A has no input block and
task B renders; A contributes only a warning, B only an output file. -/
theorem batch_isolates_failures_witness :
    generate_from_sections [⟨"A", []⟩, ⟨"B", [["N"]]⟩] =
      (([⟨"A", []⟩, ⟨"B", [["N"]]⟩] : List TaskSection).filterMap ok_entry,
        ([⟨"A", []⟩, ⟨"B", [["N"]]⟩] : List TaskSection).filterMap warn_entry) ∧
    render_section ⟨"A", []⟩ = .error ("A" ++ ": missing input format <pre>") :=
  ⟨batch_isolates_failures.1 _, (batch_isolates_failures.2 ⟨"A", []⟩ rfl).1⟩

/-- C4: for every task whose combined lines contain a case-placeholder
line and whose second input block is the single line "A_1 A_2 \ldots A_N",
rendering succeeds and the output contains the loop over the case count
`t` read in the header, with the declaration `a: [usize; n],` inside the
loop body. -/
theorem render_case_loop_array (task : TaskSection)
    (hc : has_cases task = true)
    (h2 : task.input_blocks.get? 1 = some ["A_1 A_2 \\ldots A_N"]) :
    ∃ out, render_section_lines task = .ok out ∧
      ["    for _ in 0..t \x7b", "        input! \x7b",
        "            a: [usize; n],", "        \x7d",
        "        /* TODO: solve testcase */", "    \x7d"] <:+: out := by
  obtain ⟨letter, blocks⟩ := task
  obtain ⟨b0, rest, hblocks⟩ :
      ∃ b0 rest, blocks = b0 :: ["A_1 A_2 \\ldots A_N"] :: rest := by
    cases hib : blocks with
    | nil => rw [hib] at h2; simp at h2
    | cons b0 tl =>
      cases tl with
      | nil => rw [hib] at h2; simp at h2
      | cons b1 tl2 =>
        rw [hib] at h2
        simp only [List.get?_cons_succ, List.get?_cons_zero, Option.some.injEq] at h2
        exact ⟨b0, tl2, by rw [h2]⟩
  subst hblocks
  have hg2 : guess_input_from_lines ["A_1 A_2 \\ldots A_N"]
      = ([Decl.field "a" "[usize; n]"], false) := by decide
  unfold render_section_lines
  simp only [List.head?_cons, hc, Bool.not_true, Bool.false_and, Bool.false_eq_true,
    if_false, if_true, List.get?_cons_succ, List.get?_cons_zero, hg2, Bool.false_and,
    Bool.and_false]
  refine ⟨_, rfl, ?_⟩
  refine ⟨[import_line (guess_input_from_lines b0).2, "fn main() \x7b", "    input! \x7b"] ++
    (guess_input_from_lines b0).1.map (fun d => "        " ++ declString d) ++ ["    \x7d"],
    ["\x7d"], ?_⟩
  simp
  rfl

/-- Witness for C4 at a concrete task with a case-placeholder line in its
first block and the 1D-array line as its second block. -/
theorem render_case_loop_array_witness :
    ∃ out, render_section_lines
        ⟨"A", [["T", "\\mathrm\x7Bcase\x7D_1"], ["A_1 A_2 \\ldots A_N"]]⟩ = .ok out ∧
      ["    for _ in 0..t \x7b", "        input! \x7b",
        "            a: [usize; n],", "        \x7d",
        "        /* TODO: solve testcase */", "    \x7d"] <:+: out :=
  render_case_loop_array _ (by decide) (by decide)


/-- C1: for every task with a query-placeholder line and no
case-placeholder line, rendering succeeds; the dispatch table is built
from exactly the post-header blocks of one line whose first token parses
as an i32 (`qtype_of_block`), is emitted sorted ascending by tag
(`sorted_qtypes` is a sorted permutation of the collection order), and the
emitted branch lines appear in the output in exactly that sorted order. -/
theorem render_query_dispatch_sorted (task : TaskSection)
    (hq : has_queries task = true) (hc : has_cases task = false) :
    ∃ out, render_section_lines task = .ok out ∧
      List.Sorted (fun a b => a.1 ≤ b.1) (sorted_qtypes task) ∧
      (sorted_qtypes task).Perm (qtypes_of task) ∧
      qtypes_of task = (task.input_blocks.drop 1).filterMap qtype_of_block ∧
      ∃ pre post, out = pre ++ (sorted_qtypes task).map branch_line ++ post := by
  have hne : task.input_blocks ≠ [] := by
    intro h0
    unfold has_queries combined_lines at hq
    rw [h0] at hq
    simp at hq
  obtain ⟨letter, blocks⟩ := task
  cases blocks with
  | nil => exact absurd rfl hne
  | cons b0 bs =>
    unfold render_section_lines
    simp only [List.head?_cons, hc, hq, Bool.not_true, Bool.not_false, Bool.and_false,
      Bool.true_and, Bool.false_eq_true, if_false]
    refine ⟨_, rfl, List.sorted_insertionSort _ _, List.perm_insertionSort _ _, rfl, ?_⟩
    by_cases hqts : (sorted_qtypes ⟨letter, b0 :: bs⟩).isEmpty = true
    · rw [if_neg (by rw [hqts]; decide)]
      have : sorted_qtypes ⟨letter, b0 :: bs⟩ = [] := List.isEmpty_iff.mp hqts
      rw [this]
      exact ⟨[], [import_line (guess_input_from_lines b0).2, "fn main() \x7b",
        "    input! \x7b"] ++
        (guess_input_from_lines b0).1.map (fun d => "        " ++ declString d) ++
        ["    \x7d", "    for _ in 0..q \x7b", "        input! \x7b qt: usize \x7d",
          "        /* TODO: per-query fields */",
          "        /* TODO: process query */", "    \x7d", "\x7d"], by simp⟩
    · rw [if_pos (by rw [Bool.not_eq_true] at hqts; rw [hqts]; rfl)]
      refine ⟨[import_line (guess_input_from_lines b0).2, "fn main() \x7b",
        "    input! \x7b"] ++
        (guess_input_from_lines b0).1.map (fun d => "        " ++ declString d) ++
        ["    \x7d", "    for _ in 0..q \x7b", "        input! \x7b qt: usize \x7d",
          "        match qt \x7b"],
        ["            _ => unreachable!(),", "        \x7d",
          "        /* TODO: process query */", "    \x7d", "\x7d"], ?_⟩
      simp

/-- Witness for C1 at a concrete task whose query blocks appear with tags
out of order. -/
theorem render_query_dispatch_sorted_witness :
    ∃ out, render_section_lines
        ⟨"A", [["N", "\\mathrm\x7BQuery\x7D_1"], ["2 x"], ["1 a b"]]⟩ = .ok out ∧
      List.Sorted (fun a b => a.1 ≤ b.1)
        (sorted_qtypes ⟨"A", [["N", "\\mathrm\x7BQuery\x7D_1"], ["2 x"], ["1 a b"]]⟩) ∧
      (sorted_qtypes ⟨"A", [["N", "\\mathrm\x7BQuery\x7D_1"], ["2 x"], ["1 a b"]]⟩).Perm
        (qtypes_of ⟨"A", [["N", "\\mathrm\x7BQuery\x7D_1"], ["2 x"], ["1 a b"]]⟩) ∧
      qtypes_of ⟨"A", [["N", "\\mathrm\x7BQuery\x7D_1"], ["2 x"], ["1 a b"]]⟩ =
        (([["N", "\\mathrm\x7BQuery\x7D_1"], ["2 x"], ["1 a b"]] :
          List (List String)).drop 1).filterMap qtype_of_block ∧
      ∃ pre post, out = pre ++
        (sorted_qtypes ⟨"A", [["N", "\\mathrm\x7BQuery\x7D_1"], ["2 x"], ["1 a b"]]⟩).map
          branch_line ++ post :=
  render_query_dispatch_sorted _ (by decide) (by decide)

/-! ### Adequacy of the loop fuel

The synthesizer loop is embedded with an explicit fuel initialised to
`lines.length`.  The lemmas below show the embedding is exact: every
detector consumes at least one line, so any fuel that covers the
remaining lines gives the same result — the fuel never runs out before
the Rust `while i < lines.len()` loop would exit. -/

theorem vertScan_le_j (re : RE) (lines : List String) :
    ∀ (w j : Nat) (r : String × Nat), vertScan re lines w j = some r → j ≤ r.2 := by
  intro w
  induction w with
  | zero => intro j r h; simp [vertScan] at h
  | succ w ih =>
    intro j r h
    unfold vertScan at h
    cases hget : lines.get? j with
    | none => simp only [hget] at h; simp at h
    | some l =>
      simp only [hget] at h
      by_cases hv : strContains l "\\vdots" = true
      · simp only [if_pos hv] at h
        exact le_trans (Nat.le_succ j) (ih (j + 1) r h)
      · simp only [if_neg hv] at h
        cases hm : (fullMatch re l).bind (fun c2 => capGet c2 1) with
        | some last =>
          simp only [hm] at h
          simp only [Option.some.injEq] at h
          rw [← h]
        | none =>
          simp only [hm] at h
          exact le_trans (Nat.le_succ j) (ih (j + 1) r h)

theorem pairScan_le_j (a b : String) (lines : List String) :
    ∀ (w j : Nat) (acc : Option (String × Nat)) (r : String × Nat),
      pairScan a b lines w j acc = some r → acc = some r ∨ j ≤ r.2 := by
  intro w
  induction w with
  | zero => intro j acc r h; exact Or.inl h
  | succ w ih =>
    intro j acc r h
    unfold pairScan at h
    cases hget : lines.get? j with
    | none => simp only [hget] at h; exact Or.inl h
    | some l =>
      simp only [hget] at h
      by_cases hv : strContains l "\\vdots" = true
      · simp only [if_pos hv] at h
        rcases ih (j + 1) acc r h with h1 | h1
        · exact Or.inl h1
        · exact Or.inr (le_trans (Nat.le_succ j) h1)
      · simp only [if_neg hv] at h
        cases hm : (fullMatch (rePairLast a b) l).bind (fun c2 => capGet c2 1) with
        | some ce =>
          simp only [hm] at h
          rcases ih (j + 1) (some (ce, j)) r h with h1 | h1
          · simp only [Option.some.injEq] at h1
            exact Or.inr (by rw [← h1])
          · exact Or.inr (le_trans (Nat.le_succ j) h1)
        | none =>
          simp only [hm] at h
          cases acc with
          | some p => exact Or.inl h
          | none =>
            rcases ih (j + 1) none r h with h1 | h1
            · exact absurd h1 (by simp)
            · exact Or.inr (le_trans (Nat.le_succ j) h1)

theorem parse_grid_consumed_pos (lines : List String) (idx : Nat) (kh : Option String)
    (n t : String) (c : Nat) (h : parse_grid_lines lines idx kh = some (n, t, c)) :
    1 ≤ c := by
  unfold parse_grid_lines at h
  simp only [Option.bind_eq_bind, Option.bind_eq_some] at h
  obtain ⟨l0, _, h⟩ := h
  obtain ⟨cap, _, h⟩ := h
  obtain ⟨base, _, h⟩ := h
  by_cases hs : eq_ignore_ascii_case base "S" = true
  · simp only [if_pos hs] at h
    cases hscan : vertScan (reVertLast "S") lines 7 (idx + 1) with
    | none => simp only [hscan] at h; exact absurd h (by simp)
    | some p =>
      simp only [hscan] at h
      have hj := vertScan_le_j (reVertLast "S") lines 7 (idx + 1) p hscan
      cases p with
      | mk last lf =>
        simp only [Option.some.injEq, Prod.mk.injEq] at h
        omega
  · simp only [if_neg hs] at h
    exact absurd h (by simp)

theorem parse_vertical_consumed_pos (lines : List String) (idx : Nat)
    (n t : String) (c : Nat) (h : parse_vertical_scalars lines idx = some (n, t, c)) :
    1 ≤ c := by
  unfold parse_vertical_scalars at h
  simp only [Option.bind_eq_bind, Option.bind_eq_some] at h
  obtain ⟨l0, _, h⟩ := h
  obtain ⟨cap, _, h⟩ := h
  obtain ⟨base, _, h⟩ := h
  by_cases hs : eq_ignore_ascii_case base "S" = true
  · simp only [if_pos hs] at h
    exact absurd h (by simp)
  · simp only [if_neg hs] at h
    cases hscan : vertScan (reVertLast base) lines 7 (idx + 1) with
    | none => simp only [hscan] at h; exact absurd h (by simp)
    | some p =>
      simp only [hscan] at h
      have hj := vertScan_le_j (reVertLast base) lines 7 (idx + 1) p hscan
      cases p with
      | mk last lf =>
        simp only [Option.some.injEq, Prod.mk.injEq] at h
        omega

theorem parse_pair_consumed_pos (lines : List String) (idx : Nat)
    (n t : String) (c : Nat) (h : parse_pair_repeat lines idx = some (n, t, c)) :
    1 ≤ c := by
  unfold parse_pair_repeat at h
  simp only [Option.bind_eq_bind, Option.bind_eq_some] at h
  obtain ⟨l0, _, h⟩ := h
  obtain ⟨cap, _, h⟩ := h
  obtain ⟨a, _, h⟩ := h
  obtain ⟨b, _, h⟩ := h
  cases hscan : pairScan a b lines 11 (idx + 1) none with
  | none => simp only [hscan] at h; exact absurd h (by simp)
  | some p =>
    simp only [hscan] at h
    rcases pairScan_le_j a b lines 11 (idx + 1) none p hscan with h1 | h1
    · exact absurd h1 (by simp)
    · cases p with
      | mk ce lf =>
        simp only [Option.some.injEq, Prod.mk.injEq] at h
        omega

/-- The loop result does not depend on the fuel once the fuel covers the
remaining lines: the embedded loop with fuel `lines.length` terminates for
the same reason and with the same result as the Rust `while` loop. -/
theorem guessLoop_fuel_irrelevant (tIs : Bool) (lines : List String) :
    ∀ (fuel fuel2 i : Nat) (seen : List String) (kh : Option String)
      (decls : List Decl) (nc : Bool),
      lines.length ≤ i + fuel → lines.length ≤ i + fuel2 →
      guessLoop tIs lines fuel i seen kh decls nc =
        guessLoop tIs lines fuel2 i seen kh decls nc := by
  intro fuel
  induction fuel with
  | zero =>
    intro fuel2 i seen kh decls nc h1 h2
    have hnone : lines.get? i = none := List.get?_eq_none.mpr (by omega)
    cases fuel2 with
    | zero => rfl
    | succ f2 =>
      rw [guessLoop.eq_2]
      simp only [hnone]
      rfl
  | succ fuel ih =>
    intro fuel2 i seen kh decls nc h1 h2
    cases fuel2 with
    | zero =>
      have hnone : lines.get? i = none := List.get?_eq_none.mpr (by omega)
      rw [guessLoop.eq_2]
      simp only [hnone]
      rfl
    | succ f2 =>
      rw [guessLoop.eq_2, guessLoop.eq_2]
      cases hget : lines.get? i with
      | none => simp only [hget]
      | some ln =>
        have hlt : i < lines.length := (List.get?_eq_some.mp hget).1
        simp only [hget]
        by_cases hcl : (is_case_placeholder_line ln || is_query_placeholder_line ln ||
            strContains ln "\\vdots") = true
        · simp only [if_pos hcl]
          exact ih f2 (i + 1) seen kh decls nc (by omega) (by omega)
        · simp only [if_neg hcl]
          cases hg : parse_grid_lines lines i kh with
          | some r =>
            obtain ⟨name, ty, consumed⟩ := r
            have hcpos := parse_grid_consumed_pos lines i kh name ty consumed hg
            simp only [hg]
            by_cases hmem : name ∈ seen
            · simp only [if_pos hmem]
              exact ih f2 (i + consumed) _ _ _ _ (by omega) (by omega)
            · simp only [if_neg hmem]
              exact ih f2 (i + consumed) _ _ _ _ (by omega) (by omega)
          | none =>
            simp only [hg]
            cases hp : parse_pair_repeat lines i with
            | some r =>
              obtain ⟨name, ty, consumed⟩ := r
              have hcpos := parse_pair_consumed_pos lines i name ty consumed hp
              simp only [hp]
              by_cases hmem : name ∈ seen
              · simp only [if_pos hmem]
                exact ih f2 (i + consumed) _ _ _ _ (by omega) (by omega)
              · simp only [if_neg hmem]
                exact ih f2 (i + consumed) _ _ _ _ (by omega) (by omega)
            | none =>
              simp only [hp]
              cases hv : parse_vertical_scalars lines i with
              | some r =>
                obtain ⟨name, ty, consumed⟩ := r
                have hcpos := parse_vertical_consumed_pos lines i name ty consumed hv
                simp only [hv]
                by_cases hmem : name ∈ seen
                · simp only [if_pos hmem]
                  exact ih f2 (i + consumed) _ _ _ _ (by omega) (by omega)
                · simp only [if_neg hmem]
                  exact ih f2 (i + consumed) _ _ _ _ (by omega) (by omega)
              | none =>
                simp only [hv]
                cases h1d : parse_1d_array_line ln with
                | some r =>
                  obtain ⟨name, ty⟩ := r
                  simp only [h1d]
                  by_cases hmem : name ∈ seen
                  · simp only [if_pos hmem]
                    exact ih f2 (i + 1) _ _ _ _ (by omega) (by omega)
                  · simp only [if_neg hmem]
                    exact ih f2 (i + 1) _ _ _ _ (by omega) (by omega)
                | none =>
                  simp only [h1d]
                  by_cases hf : isFlatScalarLine ln = true
                  · simp only [if_pos hf]
                    exact ih f2 (i + 1) _ _ _ _ (by omega) (by omega)
                  · simp only [if_neg hf]
                    by_cases hsym : isSingleSymbolLine ln = true
                    · simp only [if_pos hsym]
                      by_cases hmem : snake (strTrim ln) ∈ seen
                      · simp only [if_pos hmem]
                        exact ih f2 (i + 1) _ _ _ _ (by omega) (by omega)
                      · simp only [if_neg hmem]
                        exact ih f2 (i + 1) _ _ _ _ (by omega) (by omega)
                    · simp only [if_neg hsym]
                      exact ih f2 (i + 1) _ _ _ _ (by omega) (by omega)

end InputTemplate

namespace InputTemplate

/-! ### The concrete scenarios of the specification (section 8) -/

/-- Scenario A: the flat-scalar block ["N M"] declares `n` then `m` as
plain scalars and needs no string capability. -/
theorem scenario_a_flat_scalars :
    guess_input_from_lines ["N M"]
      = ([Decl.field "n" "usize", Decl.field "m" "usize"], false) := by decide

/-- Scenario B: the block ["N", "A_1 A_2 \ldots A_N"] declares the count
`n` and then the array `a: [usize; n]`. -/
theorem scenario_b_1d_array :
    guess_input_from_lines ["N", "A_1 A_2 \\ldots A_N"]
      = ([Decl.field "n" "usize", Decl.field "a" "[usize; n]"], false) := by decide

/-- Scenario C: the block ["N", "S_1", "\vdots", "S_N"] declares the
string grid `s: [Chars; n]` and requires the string capability. -/
theorem scenario_c_string_grid :
    guess_input_from_lines ["N", "S_1", "\\vdots", "S_N"]
      = ([Decl.field "n" "usize", Decl.field "s" "[Chars; n]"], true) := by decide

/-- Scenario D: the block ["N M", "x_1 y_1", "\vdots", "x_M y_M"]
declares the pair array `xy: [(usize, usize); m]` after the two scalar
counts. -/
theorem scenario_d_pair_repeat :
    guess_input_from_lines ["N M", "x_1 y_1", "\\vdots", "x_M y_M"]
      = ([Decl.field "n" "usize", Decl.field "m" "usize",
          Decl.field "xy" "[(usize, usize); m]"], false) := by decide

/-- The grid detector reuses a height `h` recorded by an earlier
flat-scalar line instead of re-deriving it from the closing line. -/
theorem grid_reuses_recorded_height :
    guess_input_from_lines ["H W", "S_1", "\\vdots", "S_H"]
      = ([Decl.field "h" "usize", Decl.field "w" "usize",
          Decl.field "s" "[Chars; h]"], true) := by decide

/-- The 1D-array detector length rules: a first index of 1 takes the
trailing expression, a first index of 0 with trailing `N-1` gives `n`,
and any other first-index-0 form gives `(expr)+1`. -/
theorem parse_1d_length_rules :
    parse_1d_array_line "A_1 A_2 \\ldots A_N" = some ("a", "[usize; n]") ∧
    parse_1d_array_line "A_0 A_1 \\ldots A_\x7bN-1\x7d" = some ("a", "[usize; n]") ∧
    parse_1d_array_line "A_0 A_1 \\ldots A_M" = some ("a", "[usize; (m)+1]") ∧
    parse_1d_array_line "A_1 A_2 \\cdots A_\x7b2N\x7d" = some ("a", "[usize; 2*n]") := by
  refine ⟨by decide, by decide, by decide, by decide⟩

end InputTemplate
